import Mathlib

/-!
# Verification of the Monster-Jobs-Scraper pipeline

A shallow embedding of `src/main.js`.  The repository contains two
near-duplicate drafts of the scraper in that file: draft A (lines 1-1252)
and draft B (lines 1253-1704).  Definitions below are translated from the
source; suffixes `A`/`B` name the draft a definition comes from.

JavaScript conventions used throughout the embedding:
* optional string-valued fields are modelled as `String`, with `""` playing
  the role of both the empty string and `undefined` (the two are
  indistinguishable in the `||`-chains and boolean tests the code performs
  on them);
* fields whose absence is distinguished from falsiness by the code
  (e.g. `job.jobPosting`) are modelled as `Option _`;
* `a || b` on strings is `jsOr`, first non-empty wins;
* numeric salary bounds are `Nat`, with `0` falsy exactly as in JS;
* the impure `scrapedAt` timestamp field is omitted from records (it is
  never read by any logic in the program).
-/

/-- JS `a || b` on strings: `""` (and `undefined`, also modelled as `""`)
is falsy. From the many `x.f || x.g || ''` chains in `src/main.js`. -/
def jsOr (a b : String) : String := if a = "" then b else a

/-- JS whitespace class: the characters matched by `\s` in a JS regex and
trimmed by `String.prototype.trim` (WhiteSpace plus LineTerminator). -/
def isJsWs (c : Char) : Bool :=
  c = ' ' || c = '\t' || c = '\n' || c = '\r' || c = '\x0b' || c = '\x0c'
    || c = ' ' || c = ' '
    || (0x2000 ≤ c.toNat && c.toNat ≤ 0x200a)
    || c = ' ' || c = ' ' || c = ' ' || c = ' '
    || c = '　' || c = '﻿'

/-- One left-to-right pass of the global replace `html.replace(/<[^>]*>/g, ' ')`
(`stripHtml`, src/main.js lines 123-126 and 1264-1267).  The state
`some buf` holds the (reversed) characters consumed since an opening `<`
that has not yet found its closing `>`; the regex match `<[^>]*>` runs from
a `<` through the first subsequent `>`, and an unclosed `<...` suffix is
emitted verbatim, which is exactly what the scanner below does. -/
def replaceTagsAux : Option (List Char) → List Char → List Char
  | none, [] => []
  | some buf, [] => buf.reverse
  | none, c :: cs =>
      if c = '<' then replaceTagsAux (some [c]) cs
      else c :: replaceTagsAux none cs
  | some buf, c :: cs =>
      if c = '>' then ' ' :: replaceTagsAux none cs
      else replaceTagsAux (some (c :: buf)) cs

/-- `html.replace(/<[^>]*>/g, ' ')`. -/
def replaceTags (l : List Char) : List Char := replaceTagsAux none l

/-- One pass of `.replace(/\s+/g, ' ')`: the flag records whether the
previous character was part of a whitespace run already replaced by a
single `' '`. -/
def collapseWsAux : Bool → List Char → List Char
  | _, [] => []
  | true, c :: cs =>
      if isJsWs c then collapseWsAux true cs
      else c :: collapseWsAux false cs
  | false, c :: cs =>
      if isJsWs c then ' ' :: collapseWsAux true cs
      else c :: collapseWsAux false cs

/-- `.replace(/\s+/g, ' ')`. -/
def collapseWs (l : List Char) : List Char := collapseWsAux false l

/-- `.trim()`: drop JS whitespace from both ends. -/
def trimChars (l : List Char) : List Char :=
  ((l.dropWhile isJsWs).reverse.dropWhile isJsWs).reverse

/-- `stripHtml` (src/main.js lines 123-126, identical copy at 1264-1267):
`if (!html) return ''; return html.replace(/<[^>]*>/g, ' ').replace(/\s+/g, ' ').trim();` -/
def stripHtml (l : List Char) : List Char :=
  if l.isEmpty then [] else trimChars (collapseWs (replaceTags l))

/-- `stripHtml` on `String`s. -/
def stripHtmlS (s : String) : String := ⟨stripHtml s.data⟩

/-- JS `String.prototype.trim` on `String`s. -/
def jsTrimS (s : String) : String := ⟨trimChars s.data⟩

/-! ## Invariants of the stripHtml pipeline (claim C10) -/

/-- Output-shape invariant of the tag replacement: no `<` has a `>`
anywhere after it, hence no substring can match `<[^>]*>`. -/
def noTag : List Char → Bool
  | [] => true
  | c :: cs => (if c = '<' then decide ('>' ∉ cs) else true) && noTag cs

/-- Every JS-whitespace character in the list is a plain space. -/
def allWsSp (l : List Char) : Bool := l.all (fun c => !(isJsWs c) || c = ' ')

/-- The first character (if any) is not JS whitespace. -/
def headNonWs : List Char → Bool
  | [] => true
  | c :: _ => !(isJsWs c)

/-- No two adjacent JS-whitespace characters. -/
def noAdjWs : List Char → Bool
  | [] => true
  | [_] => true
  | c :: d :: rest => (!(isJsWs c) || !(isJsWs d)) && noAdjWs (d :: rest)

/-! ## Data model: the canonical JobRecord and raw API payloads -/

/-- Canonical output record (spec §3 JobRecord; the object literals built
throughout src/main.js).  The impure `scrapedAt` timestamp is omitted: no
logic in the program ever reads it. -/
structure Job where
  title : String
  company : String
  location : String
  salary : String
  jobType : String
  postedDate : String
  descriptionHtml : String
  descriptionText : String
  url : String
deriving DecidableEq, Repr

/-- A JS value that is either absent, a string, or a `{city, state, country}`
object — the three shapes `job.location` / `job.jobLocation` take in the API
payloads (src/main.js lines 1065-1068 and 321-324). -/
inductive JsLoc where
  | undef
  | str (s : String)
  | obj (city state country : String)
deriving DecidableEq, Repr

/-- JS truthiness of a `JsLoc` value: `undefined` and `""` are falsy, any
object (even with empty fields) is truthy. -/
def JsLoc.truthy : JsLoc → Bool
  | .undef => false
  | .str s => decide (s ≠ "")
  | .obj _ _ _ => true

/-- JS `a || b` over location-shaped values. -/
def jsOrLoc (a b : JsLoc) : JsLoc := if a.truthy then a else b

/-- `[x, y, z].filter(Boolean).join(', ')`. -/
def joinNonEmptyComma (l : List String) : String :=
  String.intercalate ", " (l.filter (· ≠ ""))

/-- Raw job object captured from intercepted API traffic
(`setupAPIInterceptor` pushes elements of the first array found under
`jobResults`/`docs`/`results`/`data.jobs`, src/main.js lines 150-163); the
fields listed are exactly those the draft-A mapper reads at lines 1060-1081. -/
structure ApiJob where
  jobUrl : String
  url : String
  applyUrl : String
  jobViewUrl : String
  detailUrl : String
  jobId : String
  location : JsLoc
  jobLocation : JsLoc
  city : String
  title : String
  jobTitle : String
  name : String
  company : String
  companyName : String
  hiringCompany : String
  companyDisplayName : String
  salary : String
  compensation : String
  estimatedSalary : String
  jobType : String
  employmentType : String
  type : String
  postedDate : String
  datePosted : String
  listedDate : String
  postedAt : String
  description : String
  jobDescription : String
  snippet : String
deriving DecidableEq, Repr

/-- An `ApiJob` with every field absent. -/
def emptyApiJob : ApiJob :=
  ⟨"", "", "", "", "", "", .undef, .undef, "", "", "", "", "", "", "", "",
    "", "", "", "", "", "", "", "", "", "", "", "", ""⟩

/-- The mapping applied to each intercepted API job in draft A's
requestHandler, src/main.js lines 1060-1081. -/
def normalizeApiJobA (job : ApiJob) : Job :=
  let jobUrl := jsOr job.jobUrl (jsOr job.url (jsOr job.applyUrl
      (jsOr job.jobViewUrl (jsOr job.detailUrl
        (if job.jobId ≠ "" then
          "https://www.monster.com/job-openings/" ++ job.jobId else "")))))
  let loc := jsOrLoc job.location (jsOrLoc job.jobLocation (.str job.city))
  let location := match loc with
    | .obj city state country => joinNonEmptyComma [city, state, country]
    | .str s => s
    | .undef => ""
  let description := jsOr job.description (jsOr job.jobDescription
      (jsOr job.snippet ""))
  { title := jsOr job.title (jsOr job.jobTitle (jsOr job.name ""))
    company := jsOr job.company (jsOr job.companyName
      (jsOr job.hiringCompany (jsOr job.companyDisplayName "")))
    location := location
    salary := jsOr job.salary (jsOr job.compensation
      (jsOr job.estimatedSalary "Not specified"))
    jobType := jsOr job.jobType (jsOr job.employmentType
      (jsOr job.type "Not specified"))
    postedDate := jsOr job.postedDate (jsOr job.datePosted
      (jsOr job.listedDate (jsOr job.postedAt "")))
    descriptionHtml := description
    descriptionText := stripHtmlS description
    url := jobUrl }

/-- Draft A per-page strategy chain, src/main.js lines 1054-1112:
strategy 1 is the intercepted-traffic array mapped through the API
normalizer; each later strategy (embedded Next.js data, JSON-LD, DOM
parsing) runs only when `jobs.length === 0` after the previous one.  The
later strategies' would-be outputs are parameters: they are functions of
the page only, not of earlier strategies. -/
def strategyChainA (captured : List ApiJob)
    (embedded jsonld dom : List Job) : List Job :=
  let jobs : List Job :=
    if captured.length > 0 then captured.map normalizeApiJobA else []
  let jobs := if jobs.length = 0 then embedded else jobs
  let jobs := if jobs.length = 0 then jsonld else jobs
  if jobs.length = 0 then dom else jobs

/-! ## Draft B Normalizer: normalizeMonsterJob (src/main.js 1272-1339) -/

/-- `hiringOrganization` object: only its `name` is ever read. -/
structure HiringOrgB where
  name : String
deriving DecidableEq, Repr

/-- Address-shaped object: the five fields read at src/main.js 1292-1298. -/
structure AddressB where
  addressLocality : String
  addressRegion : String
  addressCountry : String
  city : String
  state : String
deriving DecidableEq, Repr

/-- One element of a `jobLocation` array (or the single object): the code
reads `item.address || item`, so an item carries an optional nested
`address` and is itself usable as an address. -/
structure LocItem where
  address : Option AddressB
  self : AddressB
deriving DecidableEq, Repr

/-- The value of a `jobLocation` field: absent, a string, an array, or a
plain object. -/
inductive JobLocB where
  | undef
  | str (s : String)
  | arr (items : List LocItem)
  | obj (item : LocItem)
deriving DecidableEq, Repr

/-- JS truthiness of a `jobLocation` value (arrays and objects are always
truthy, `""` and `undefined` are falsy). -/
def JobLocB.truthy : JobLocB → Bool
  | .undef => false
  | .str s => decide (s ≠ "")
  | .arr _ => true
  | .obj _ => true

/-- JS `a || b` over `jobLocation` values. -/
def jsOrJobLoc (a b : JobLocB) : JobLocB := if a.truthy then a else b

/-- `baseSalary.value` with `minValue`/`maxValue`; `0` is falsy in the
guards `sv.minValue || sv.maxValue`, exactly as a missing field is. -/
structure SalaryValueB where
  minValue : Nat
  maxValue : Nat
deriving DecidableEq, Repr

/-- `baseSalary` object of draft B; `value = none` covers an absent or
falsy `value` (both skip the salary branch at src/main.js 1311). -/
structure BaseSalaryB where
  value : Option SalaryValueB
  currency : String
deriving DecidableEq, Repr

/-- An `employmentType`-shaped value: absent, a string, or an array of
strings (`Array.isArray(empType) ? empType.join(', ') : ...`). -/
inductive EmpTypeB where
  | undef
  | str (s : String)
  | arr (l : List String)
deriving DecidableEq, Repr

/-- JS truthiness of an employment-type value (any array is truthy). -/
def EmpTypeB.truthy : EmpTypeB → Bool
  | .undef => false
  | .str s => decide (s ≠ "")
  | .arr _ => true

/-- JS `a || b` over employment-type values. -/
def jsOrEmp (a b : EmpTypeB) : EmpTypeB := if a.truthy then a else b

/-- The posting-shaped fields read through
`const posting = job.jobPosting || job.normalizedJobPosting || job`. -/
structure PostingView where
  title : String
  hiringOrganization : Option HiringOrgB
  companyName : String
  jobLocation : JobLocB
  url : String
  baseSalary : Option BaseSalaryB
  employmentType : EmpTypeB
  description : String
  datePosted : String
deriving DecidableEq, Repr

/-- A RawJobCandidate as consumed by `normalizeMonsterJob`: optional nested
postings, the candidate's own posting-shaped fields (used when neither
nested posting is present, since then `posting` *is* the candidate), and
the fields only ever read on the candidate itself. -/
structure MJCandidate where
  jobPosting : Option PostingView
  normalizedJobPosting : Option PostingView
  title : String
  hiringOrganization : Option HiringOrgB
  companyName : String
  jobLocation : JobLocB
  url : String
  baseSalary : Option BaseSalaryB
  employmentType : EmpTypeB
  description : String
  datePosted : String
  jobTitle : String
  name : String
  company : String
  hiringCompany : String
  companyDisplayName : String
  location : String
  city : String
  detailUrl : String
  jobViewUrl : String
  jobUrl : String
  mesco : String
  jobId : String
  salary : String
  jobType : EmpTypeB
  snippet : String
  postedDate : String
deriving DecidableEq, Repr

/-- The candidate itself, viewed through the posting field names. -/
def MJCandidate.selfView (c : MJCandidate) : PostingView :=
  ⟨c.title, c.hiringOrganization, c.companyName, c.jobLocation, c.url,
    c.baseSalary, c.employmentType, c.description, c.datePosted⟩

/-- `const posting = job.jobPosting || job.normalizedJobPosting || job;`
(src/main.js 1276). -/
def postingOf (c : MJCandidate) : PostingView :=
  match c.jobPosting with
  | some p => p
  | none =>
      match c.normalizedJobPosting with
      | some p => p
      | none => c.selfView

/-- `posting.title || job.jobTitle || job.title || job.name || ''`
(src/main.js 1280): the title the Normalizer derives. -/
def derivedTitleB (c : MJCandidate) : String :=
  jsOr (postingOf c).title (jsOr c.jobTitle (jsOr c.title (jsOr c.name "")))

/-- The URL chain of src/main.js 1304-1306: the URL the Normalizer
derives. -/
def derivedUrlB (c : MJCandidate) : String :=
  jsOr c.detailUrl (jsOr c.jobViewUrl (jsOr (postingOf c).url
    (jsOr c.jobUrl (jsOr c.url
      (jsOr (if c.mesco ≠ "" then
          "https://www.monster.com/job-openings/" ++ c.mesco else "")
        (if c.jobId ≠ "" then
          "https://www.monster.com/job-openings/" ++ c.jobId else ""))))))

/-- The location extraction of src/main.js 1289-1301. -/
def locationB (jobLocations : JobLocB) (jobLocation jobCity : String) : String :=
  match jobLocations with
  | .arr (item :: _) =>
      let addr := item.address.getD item.self
      joinNonEmptyComma
        [addr.addressLocality, addr.addressRegion, addr.addressCountry]
  | .arr [] =>
      -- an empty array is `typeof 'object'` but not `length > 0`: the
      -- object branch reads no fields off it and the join yields `''`
      ""
  | .obj item =>
      let addr := item.address.getD item.self
      joinNonEmptyComma
        [jsOr addr.addressLocality addr.city, jsOr addr.addressRegion addr.state]
  | .str _ => jsOr jobLocation (jsOr jobCity "")
  | .undef => jsOr jobLocation (jsOr jobCity "")

/-- The salary string of src/main.js 1314 (the ` - ` separator appears only
when `maxValue` is truthy). -/
def salaryStrB (sv : SalaryValueB) (currency : String) : String :=
  jsTrimS ((if sv.minValue ≠ 0 then toString sv.minValue else "")
    ++ (if sv.maxValue ≠ 0 then " - " ++ toString sv.maxValue else "")
    ++ " " ++ currency)

/-- The salary extraction of src/main.js 1308-1318. -/
def normSalaryB (baseSalary : Option BaseSalaryB) (jobSalary : String) : String :=
  match baseSalary with
  | some bs =>
      match bs.value with
      | some sv =>
          if sv.minValue ≠ 0 ∨ sv.maxValue ≠ 0 then salaryStrB sv bs.currency
          else "Not specified"
      | none => if jobSalary ≠ "" then jobSalary else "Not specified"
  | none => if jobSalary ≠ "" then jobSalary else "Not specified"

/-- `normalizeMonsterJob` (src/main.js 1272-1339), the draft-B Normalizer:
RawJobCandidate in, JobRecord or null out. -/
def normalizeMonsterJob (jobOpt : Option MJCandidate) : Option Job :=
  match jobOpt with
  | none => none
  | some job =>
      let posting := postingOf job
      let title := derivedTitleB job
      if title = "" then none
      else
        let hiringOrgName :=
          match posting.hiringOrganization with
          | some o => o.name
          | none => ""
        let company := jsOr hiringOrgName (jsOr posting.companyName
          (jsOr job.company (jsOr job.companyName
            (jsOr job.hiringCompany (jsOr job.companyDisplayName "")))))
        let jobLocations := jsOrJobLoc posting.jobLocation job.jobLocation
        let location := locationB jobLocations job.location job.city
        let salary := normSalaryB
          (match posting.baseSalary with
            | some bs => some bs
            | none => job.baseSalary) job.salary
        let empType := jsOrEmp posting.employmentType
          (jsOrEmp job.employmentType job.jobType)
        let jobType :=
          match empType with
          | .arr l => String.intercalate ", " l
          | .str s => jsOr s "Not specified"
          | .undef => "Not specified"
        let description := jsOr posting.description
          (jsOr job.description (jsOr job.snippet ""))
        some
          { title := title
            company := company
            location := location
            salary := salary
            jobType := jobType
            postedDate := jsOr posting.datePosted
              (jsOr job.postedDate (jsOr job.datePosted ""))
            descriptionHtml := description
            descriptionText := stripHtmlS description
            url := derivedUrlB job }

/-- An `MJCandidate` with every field absent. -/
def emptyMJCandidate : MJCandidate :=
  ⟨none, none, "", none, "", .undef, "", none, .undef, "", "", "", "", "",
    "", "", "", "", "", "", "", "", "", "", .undef, "", ""⟩

/-! ## Draft A JSON-LD parser: parseJobPosting (src/main.js 77-118) -/

/-- `(jobData.jobLocation || {}).address || {}`: absent, a plain string, or
an address object. -/
inductive LdAddress where
  | undef
  | str (s : String)
  | obj (addressLocality addressRegion addressCountry : String)
deriving DecidableEq, Repr

/-- `jobLocation` object of a JSON-LD JobPosting; only `address` is read. -/
structure LdLocation where
  address : LdAddress
deriving DecidableEq, Repr

/-- `baseSalary.value`: either a `{minValue, maxValue}` object or a truthy
scalar (kept as its string form, which is how a template literal renders
it); `none` on `LdBaseSalary.value` covers absent and falsy scalars. -/
inductive LdSalaryValue where
  | obj (minValue maxValue : Nat)
  | scalar (s : String)
deriving DecidableEq, Repr

/-- `baseSalary` object of a JSON-LD JobPosting. -/
structure LdBaseSalary where
  value : Option LdSalaryValue
  currency : String
deriving DecidableEq, Repr

/-- A JSON-LD `JobPosting` candidate: the fields read by
`parseJobPosting`. -/
structure LdJobPosting where
  title : String
  hiringOrganization : Option HiringOrgB
  jobLocation : Option LdLocation
  baseSalary : Option LdBaseSalary
  employmentType : String
  datePosted : String
  description : String
  url : String
deriving DecidableEq, Repr

/-- An `LdJobPosting` with every field absent. -/
def emptyLdJobPosting : LdJobPosting := ⟨"", none, none, none, "", "", "", ""⟩

/-- `parseJobPosting` (src/main.js 77-118): maps a JSON-LD JobPosting to
the canonical record; it never returns null. -/
def parseJobPosting (jobData : LdJobPosting) : Job :=
  let address :=
    match jobData.jobLocation with
    | some l => l.address
    | none => .undef
  let location :=
    match address with
    | .str s => s
    | .obj a b c => joinNonEmptyComma [a, b, c]
    | .undef => joinNonEmptyComma ["", "", ""]
  let salary :=
    match jobData.baseSalary with
    | none => "Not specified"
    | some bs =>
        match bs.value with
        | none => "Not specified"
        | some (.obj mn mx) =>
            jsTrimS ((if mn ≠ 0 then toString mn else "") ++ " - "
              ++ (if mx ≠ 0 then toString mx else "") ++ " " ++ bs.currency)
        | some (.scalar v) => jsTrimS (v ++ " " ++ bs.currency)
  { title := jobData.title
    company :=
      match jobData.hiringOrganization with
      | some o => o.name
      | none => ""
    location := location
    salary := salary
    jobType := jsOr jobData.employmentType "Not specified"
    postedDate := jobData.datePosted
    descriptionHtml := jobData.description
    descriptionText :=
      if jobData.description ≠ "" then stripHtmlS jobData.description else ""
    url := jobData.url }

/-- Concrete candidate: draft-B candidate with a title and the C9 salary
source. -/
def salaryCandB : MJCandidate :=
  { emptyMJCandidate with title := "T", baseSalary := some ⟨some ⟨50000, 70000⟩, "USD"⟩ }

/-- Concrete candidate: draft-B candidate with a title and no salary
source. -/
def noSalaryCandB : MJCandidate := { emptyMJCandidate with title := "T" }

/-- Concrete JSON-LD posting carrying the C9 salary source. -/
def salaryLd : LdJobPosting :=
  { emptyLdJobPosting with baseSalary := some ⟨some (.obj 50000 70000), "USD"⟩ }

/-- Concrete candidate: a derivable URL but no derivable title. -/
def urlOnlyCand : MJCandidate :=
  { emptyMJCandidate with url := "https://www.monster.com/job-openings/42" }

/-- Concrete candidate: a derivable title. -/
def titledCand : MJCandidate := { emptyMJCandidate with jobTitle := "Nurse" }

/-! ## Enrichment (src/main.js 356-501, draft A) -/

/-- Per-record outcome of `fetchFullDescription` (src/main.js 360-440):
a detected block, a parsed description (with optional job type, `""` for
the `jobType || null` case), or any other failure (`null`). The function
itself performs network I/O and DOM parsing, so it is the oracle boundary
of the embedding. -/
inductive FetchOutcome where
  | blocked
  | success (descriptionHtml descriptionText jobType : String)
  | failure
deriving DecidableEq, Repr

/-- The per-record merge step of `enrichJobsWithFullDescriptions`
(src/main.js 463-484): skip records without a URL; on a block keep the
record and count it; on a success with a non-empty description merge the
three fields; otherwise keep the record unchanged. -/
def enrichOne (fetch : String → FetchOutcome) (job : Job) : Job × Nat :=
  if job.url = "" then (job, 0)
  else
    match fetch job.url with
    | .blocked => (job, 1)
    | .success dh dt jt =>
        if dh ≠ "" then
          ({ job with
              descriptionHtml := dh
              descriptionText := dt
              jobType := jsOr jt job.jobType }, 0)
        else (job, 0)
    | .failure => (job, 0)

/-- The batch loop of `enrichJobsWithFullDescriptions` (src/main.js
460-494): fixed batches of `maxConcurrency = 10` (the default, used by the
only call site at line 1156), results concatenated in order, blocked count
accumulated across batches.  Recursion is by fuel (one unit per record is
ample); the `0` case is unreachable for the fuel `jobs.length` supplied
below. -/
def enrichBatchesFuel (fetch : String → FetchOutcome) :
    Nat → List Job → List Job × Nat
  | _, [] => ([], 0)
  | 0, _ => ([], 0)
  | fuel + 1, jobs =>
      let batch := (jobs.take 10).map (enrichOne fetch)
      let rest := enrichBatchesFuel fetch fuel (jobs.drop 10)
      (batch.map Prod.fst ++ rest.1, (batch.map Prod.snd).sum + rest.2)

/-- `enrichJobsWithFullDescriptions` (src/main.js 445-501): list of
records in, enriched records plus blocked count out. -/
def enrichJobsWithFullDescriptions (fetch : String → FetchOutcome)
    (jobs : List Job) : List Job × Nat :=
  enrichBatchesFuel fetch jobs.length jobs

/-- Concrete record with a URL and a snippet-derived description. -/
def snippetJob : Job :=
  { title := "Nurse", company := "Acme", location := "NY",
    salary := "Not specified", jobType := "Not specified", postedDate := "",
    descriptionHtml := "<p>snippet</p>", descriptionText := "snippet",
    url := "https://www.monster.com/job-openings/7" }

/-- Fetch oracle whose every detail fetch returns a block signature. -/
def blockedFetch : String → FetchOutcome := fun _ => .blocked

/-! ## Run models: per-page emission, dedup and maxJobs (drafts A and B) -/

/-- Run-scoped mutable state of draft A: the `seenJobUrls` set and
`totalJobsScraped` counter (src/main.js 943-948). -/
structure CrawlStateA where
  seen : List String
  total : Nat
deriving DecidableEq, Repr

/-- Draft A's duplicate filter (src/main.js 1136-1146): records without a
URL always pass and leave the seen-set untouched; records with a URL pass
exactly when the URL is unseen, and then record it. -/
def dedupA (seen : List String) : List Job → List Job × List String
  | [] => ([], seen)
  | j :: js =>
      if j.url = "" then
        let r := dedupA seen js
        (j :: r.1, r.2)
      else if j.url ∈ seen then dedupA seen js
      else
        let r := dedupA (j.url :: seen) js
        (j :: r.1, r.2)

/-- One page of draft A's requestHandler after extraction (src/main.js
1129-1168): slice to the remaining `maxJobs` budget, drop duplicates,
enrich, push, and add the pushed count to the total.  A page with no
extracted jobs returns early (line 1126). -/
def processPageA (maxJobs : Int) (fetch : String → FetchOutcome)
    (st : CrawlStateA) (jobs : List Job) : List Job × CrawlStateA :=
  if jobs.length = 0 then ([], st)
  else
    let jobsToSave :=
      if 0 < maxJobs then jobs.take (maxJobs - (st.total : Int)).toNat
      else jobs
    let dd := dedupA st.seen jobsToSave
    let pushed := (enrichJobsWithFullDescriptions fetch dd.1).1
    (pushed, ⟨dd.2, st.total + pushed.length⟩)

/-- The sequence of records draft A pushes to the dataset over a run, as a
fold of `processPageA` over the per-page extraction results. -/
def runAAux (maxJobs : Int) (fetch : String → FetchOutcome) :
    CrawlStateA → List (List Job) → List Job
  | _, [] => []
  | st, p :: ps =>
      let step := processPageA maxJobs fetch st p
      step.1 ++ runAAux maxJobs fetch step.2 ps

/-- A whole draft-A run starting from the empty seen-set and zero total. -/
def runA (maxJobs : Int) (fetch : String → FetchOutcome)
    (pages : List (List Job)) : List Job :=
  runAAux maxJobs fetch ⟨[], 0⟩ pages

/-- Draft B's identity key (src/main.js 1652):
`job.url || `${job.title}-${job.company}``. -/
def keyB (j : Job) : String := jsOr j.url (j.title ++ "-" ++ j.company)

/-- Draft B's select loop (src/main.js 1648-1657): stop when the total
plus the batch so far reaches `maxJobs`; otherwise keep a record exactly
when its key is unseen.  `count` is `totalJobsScraped + jobsToSave.length`
of the JS loop. -/
def selectB (maxJobs : Int) : List String → Nat → List Job → List Job × List String
  | seen, _, [] => ([], seen)
  | seen, count, j :: js =>
      if 0 < maxJobs ∧ maxJobs ≤ (count : Int) then ([], seen)
      else if keyB j ∈ seen then selectB maxJobs seen count js
      else
        let r := selectB maxJobs (keyB j :: seen) (count + 1) js
        (j :: r.1, r.2)

/-- Run-scoped mutable state of draft B (src/main.js 1540-1544). -/
structure CrawlStateB where
  seen : List String
  total : Nat
deriving DecidableEq, Repr

/-- One page of draft B's requestHandler after extraction (src/main.js
1635-1663): the select loop, then push and count.  A page with no
extracted jobs returns early (line 1644).  Draft B performs no
enrichment. -/
def processPageB (maxJobs : Int) (st : CrawlStateB) (jobs : List Job) :
    List Job × CrawlStateB :=
  if jobs.length = 0 then ([], st)
  else
    let r := selectB maxJobs st.seen st.total jobs
    (r.1, ⟨r.2, st.total + r.1.length⟩)

/-- The sequence of records draft B pushes over a run. -/
def runBAux (maxJobs : Int) : CrawlStateB → List (List Job) → List Job
  | _, [] => []
  | st, p :: ps =>
      let step := processPageB maxJobs st p
      step.1 ++ runBAux maxJobs step.2 ps

/-- A whole draft-B run starting from the empty seen-set and zero total. -/
def runB (maxJobs : Int) (pages : List (List Job)) : List Job :=
  runBAux maxJobs ⟨[], 0⟩ pages

/-- Two records do not collide on a non-empty URL. -/
def urlDistinct (a b : Job) : Prop := a.url ≠ "" → b.url ≠ "" → a.url ≠ b.url

/-- Modelled from the spec: the identity key of §4.5 — "URL when present,
else a composite of title+company+location".  This definition follows the
claim's words (it appears in no draft of the code) and exists to be
compared with what the code actually deduplicates on. -/
def specIdentityKey (j : Job) : String :=
  if j.url ≠ "" then j.url
  else j.title ++ "|" ++ j.company ++ "|" ++ j.location

/-- A record without a URL. -/
def dupJob1 : Job :=
  { title := "Nurse", company := "Acme", location := "NY",
    salary := "Not specified", jobType := "Not specified", postedDate := "",
    descriptionHtml := "first", descriptionText := "first", url := "" }

/-- A distinct record sharing title, company and location (hence the
spec's composite identity key) with `dupJob1`, and also without a URL. -/
def dupJob2 : Job :=
  { dupJob1 with descriptionHtml := "second", descriptionText := "second" }

/-- A record with URL 1. -/
def wjob1 : Job := { snippetJob with url := "https://www.monster.com/job-openings/1" }

/-- A record with URL 2. -/
def wjob2 : Job := { snippetJob with url := "https://www.monster.com/job-openings/2" }

/-- A record with URL 3. -/
def wjob3 : Job := { snippetJob with url := "https://www.monster.com/job-openings/3" }

/-! ## Actor input, validation and crawler plans (claims C5, C6, C7) -/

/-- The recognized input options (README and the fields read in both
drafts' `main`/`buildSearchUrl`).  `proxyConfiguration` is an opaque
passthrough and is omitted.  `httpOnly` is documented in the README; the
code never reads it. -/
structure ActorInput where
  searchUrl : Option String
  searchQuery : Option String
  location : Option String
  maxJobs : Option Int
  maxPages : Option Int
  httpOnly : Option Bool
  sortBy : Option String
deriving DecidableEq, Repr

/-- JS `!x?.trim()`: the field is absent, or trims to the empty string. -/
def blankOpt (s : Option String) : Bool :=
  match s with
  | none => true
  | some v => decide (jsTrimS v = "")

/-- UTF-8 bytes of a character (as `Nat`s below 256). -/
def utf8Bytes (c : Char) : List Nat :=
  let n := c.toNat
  if n < 0x80 then [n]
  else if n < 0x800 then [0xC0 + n / 64, 0x80 + n % 64]
  else if n < 0x10000 then
    [0xE0 + n / 4096, 0x80 + (n / 64) % 64, 0x80 + n % 64]
  else
    [0xF0 + n / 262144, 0x80 + (n / 4096) % 64, 0x80 + (n / 64) % 64,
      0x80 + n % 64]

/-- Characters `URLSearchParams` serializes as themselves
(`application/x-www-form-urlencoded`: alphanumerics and `*-._`). -/
def isUrlencodedSafe (c : Char) : Bool :=
  ('A' ≤ c && c ≤ 'Z') || ('a' ≤ c && c ≤ 'z') || ('0' ≤ c && c ≤ '9')
    || c = '*' || c = '-' || c = '.' || c = '_'

/-- Upper-case hex digit of a value below 16. -/
def hexDigit (n : Nat) : Char :=
  if n < 10 then Char.ofNat ('0'.toNat + n) else Char.ofNat ('A'.toNat + n - 10)

/-- `%XX` encoding of one byte. -/
def percentByte (b : Nat) : List Char := ['%', hexDigit (b / 16), hexDigit (b % 16)]

/-- One character under the `URLSearchParams` serializer: space becomes
`+`, safe characters pass through, everything else is percent-encoded
byte-wise. -/
def urlencodeChar (c : Char) : List Char :=
  if c = ' ' then ['+']
  else if isUrlencodedSafe c then [c]
  else ((utf8Bytes c).map percentByte).flatten

/-- `URLSearchParams` serialization of one string. -/
def urlencode (s : String) : String := ⟨(s.data.map urlencodeChar).flatten⟩

/-- `params.toString()`: `k=v` pairs joined with `&`. -/
def encodeParams (ps : List (String × String)) : String :=
  String.intercalate "&" (ps.map (fun p => urlencode p.1 ++ "=" ++ urlencode p.2))

/-- `buildSearchUrl` (src/main.js 506-534, and its textually reduced but
behaviorally identical copy at 1499-1511): a non-blank `searchUrl` is
returned trimmed and short-circuits everything else; otherwise the search
URL is assembled from `q`, `where`, a fixed `page=1` and the sort code. -/
def buildSearchUrl (input : ActorInput) : String :=
  if blankOpt input.searchUrl = false then jsTrimS (input.searchUrl.getD "")
  else
    let params : List (String × String) :=
      (match input.searchQuery with
        | some q => if q ≠ "" then [("q", q)] else []
        | none => [])
      ++ (match input.location with
        | some l => if l ≠ "" then [("where", l)] else []
        | none => [])
      ++ [("page", "1"),
          ("so", if input.sortBy = some "date" then "m.h.s" else "m.h.sh")]
    "https://www.monster.com/jobs/search?" ++ encodeParams params

/-- What draft A's `main` fixes before `crawler.run` (src/main.js
914-957): the crawl options are constants — in particular
`maxRequestsPerCrawl: 20`, independent of the input. -/
structure RunPlanA where
  startUrl : String
  maxJobs : Int
  maxRequestsPerCrawl : Nat
  maxConcurrency : Nat
deriving DecidableEq, Repr

/-- Draft A's startup (src/main.js 914-957): validation, `maxJobs` range
check, then the crawler plan.  An `error` aborts the run before any
fetch. -/
def mainA (input : ActorInput) : Except String RunPlanA :=
  if blankOpt input.searchUrl
      ∧ (blankOpt input.searchQuery ∨ blankOpt input.location) then
    .error "Invalid input: Either provide a searchUrl OR both searchQuery and location are required"
  else
    let maxJobs := input.maxJobs.getD 20
    if maxJobs < 0 ∨ 10000 < maxJobs then
      .error "maxJobs must be between 0 and 10000"
    else
      .ok { startUrl := buildSearchUrl input, maxJobs := maxJobs,
            maxRequestsPerCrawl := 20, maxConcurrency := 3 }

/-- What draft B's `main` fixes before `crawler.run` (src/main.js
1516-1552): `maxRequestsPerCrawl` is `maxPages` when positive, else 10. -/
structure RunPlanB where
  startUrl : String
  maxJobs : Int
  maxPages : Int
  maxRequestsPerCrawl : Int
  maxConcurrency : Nat
deriving DecidableEq, Repr

/-- Draft B's startup (src/main.js 1516-1552). -/
def mainB (input : ActorInput) : Except String RunPlanB :=
  if blankOpt input.searchUrl ∧ blankOpt input.searchQuery then
    .error "Provide either searchUrl or searchQuery"
  else
    let maxJobs := input.maxJobs.getD 20
    let maxPages := input.maxPages.getD 3
    .ok { startUrl := buildSearchUrl input, maxJobs := maxJobs,
          maxPages := maxPages,
          maxRequestsPerCrawl := if 0 < maxPages then maxPages else 10,
          maxConcurrency := 1 }

/-- Whether a startup produced a plan rather than a fatal error. -/
def isOkE {ε α : Type} (e : Except ε α) : Bool :=
  match e with
  | .ok _ => true
  | .error _ => false

/-- The crawled start URL of a draft-A plan, when startup succeeded. -/
def startUrlA : Except String RunPlanA → Option String
  | .ok p => some p.startUrl
  | .error _ => none

/-- The `maxRequestsPerCrawl` of a draft-A plan (0 when startup failed). -/
def maxReqA : Except String RunPlanA → Nat
  | .ok p => p.maxRequestsPerCrawl
  | .error _ => 0

/-- Modelled from the spec: the crawl loop's external collaborator
(crawlee's `PlaywrightCrawler`, absent from src/) invokes the
requestHandler once per enqueued page up to `maxRequestsPerCrawl`, and
`pagesProcessed` is incremented exactly once per invocation; with
`available` pages reachable, the pages processed over a run are
`min available maxRequestsPerCrawl`. -/
def pagesProcessed (available maxRequestsPerCrawl : Nat) : Nat :=
  min available maxRequestsPerCrawl

/-- The crawled start URL of a draft-B plan, when startup succeeded. -/
def startUrlB : Except String RunPlanB → Option String
  | .ok p => some p.startUrl
  | .error _ => none

/-- Concrete input for C5: a direct search URL and `maxPages = 3`. -/
def maxPagesInput : ActorInput :=
  { searchUrl := some "https://www.monster.com/jobs/search?q=admin&page=1",
    searchQuery := none, location := none, maxJobs := none,
    maxPages := some 3, httpOnly := none, sortBy := none }

/-- Concrete input for the C5 witness: `maxPages = 2`. -/
def wInput5 : ActorInput :=
  { searchUrl := some "https://www.monster.com/jobs/search?q=a&page=1",
    searchQuery := none, location := none, maxJobs := none,
    maxPages := some 2, httpOnly := none, sortBy := none }

/-- The plan draft B builds for `wInput5`. -/
def wPlanB5 : RunPlanB :=
  { startUrl := "https://www.monster.com/jobs/search?q=a&page=1",
    maxJobs := 20, maxPages := 2, maxRequestsPerCrawl := 2,
    maxConcurrency := 1 }

/-- The plan draft A builds for `wInput5`. -/
def wPlanA5 : RunPlanA :=
  { startUrl := "https://www.monster.com/jobs/search?q=a&page=1",
    maxJobs := 20, maxRequestsPerCrawl := 20, maxConcurrency := 3 }

/-- Concrete input with both `searchUrl` and `searchQuery` non-empty. -/
def bothInput : ActorInput :=
  { searchUrl := some "https://www.monster.com/jobs/search?q=admin&page=1",
    searchQuery := some "admin", location := some "New York",
    maxJobs := none, maxPages := none, httpOnly := none, sortBy := none }

/-- A configuration with every field absent. -/
def emptyInput : ActorInput :=
  { searchUrl := none, searchQuery := none, location := none,
    maxJobs := none, maxPages := none, httpOnly := none, sortBy := none }

/-- An input exercising both a whitespace-padded `searchUrl` and a
simultaneous `searchQuery`. -/
def wInput6 : ActorInput :=
  { searchUrl := some " https://www.monster.com/jobs/search?q=admin&page=1 ",
    searchQuery := some "admin", location := none, maxJobs := some 50,
    maxPages := none, httpOnly := none, sortBy := none }

/-- `retry: { limit: 2 }` passed to gotScraping by the lightweight
direct-API fetch (`extractJobsViaDirectAPI`, src/main.js 197): on failure
the lightweight request would be retried up to twice, and the function is
never invoked anywhere in either draft. -/
def directAPIRetryLimit : Nat := 2

/-- Concrete input for C7: a keyword search with `httpOnly: true`. -/
def httpOnlyInput : ActorInput :=
  { searchUrl := none, searchQuery := some "admin",
    location := some "New York", maxJobs := none, maxPages := none,
    httpOnly := some true, sortBy := none }

/-! ## Theorems -/

lemma stripHtmlS_sample_tags : stripHtmlS "<p>Hello <b>World</b></p>" = "Hello World" := by decide

lemma stripHtmlS_sample_ws : stripHtmlS "  a   b " = "a b" := by decide

lemma stripHtmlS_sample_unclosed : stripHtmlS "a<b" = "a<b" := by decide

lemma stripHtmlS_sample_nested : stripHtmlS "<<b>x" = "x" := by decide

lemma noTag_cons (c : Char) (cs : List Char) :
    noTag (c :: cs) = ((if c = '<' then decide ('>' ∉ cs) else true) && noTag cs) := rfl

lemma noAdjWs_cons (c : Char) (l : List Char) :
    noAdjWs (c :: l) = ((!(isJsWs c) || headNonWs l) && noAdjWs l) := by
  cases l with
  | nil => simp [noAdjWs, headNonWs]
  | cons d rest => simp [noAdjWs, headNonWs]

lemma noTag_of_not_mem_gt {l : List Char} (h : '>' ∉ l) : noTag l = true := by
  induction l with
  | nil => rfl
  | cons c cs ih =>
      rw [noTag_cons]
      have hcs : '>' ∉ cs := fun hm => h (List.mem_cons_of_mem _ hm)
      simp [hcs, ih hcs]

lemma noTag_cons_elim {c : Char} {cs : List Char} (h : noTag (c :: cs) = true) :
    noTag cs = true := by
  rw [noTag_cons, Bool.and_eq_true] at h
  exact h.2

lemma noTag_append_right {a b : List Char} (h : noTag (a ++ b) = true) :
    noTag b = true := by
  induction a with
  | nil => exact h
  | cons c a' ih => exact ih (noTag_cons_elim h)

lemma noTag_append_left {a b : List Char} (h : noTag (a ++ b) = true) :
    noTag a = true := by
  induction a with
  | nil => rfl
  | cons c a' ih =>
      rw [List.cons_append, noTag_cons, Bool.and_eq_true] at h
      rw [noTag_cons, Bool.and_eq_true]
      refine ⟨?_, ih h.2⟩
      rcases h with ⟨h1, _⟩
      by_cases hc : c = '<'
      · simp [hc] at h1 ⊢
        exact h1.1
      · simp [hc]

lemma noTag_of_between {l₁ l₂ : List Char} (h : l₁ <:+: l₂) (hn : noTag l₂ = true) :
    noTag l₁ = true := by
  rcases h with ⟨s, t, rfl⟩
  rw [List.append_assoc] at hn
  exact noTag_append_left (noTag_append_right hn)

lemma mem_replaceTagsAux {x : Char} :
    ∀ (l : List Char) (st : Option (List Char)),
      x ∈ replaceTagsAux st l →
      x ∈ l ∨ x = ' ' ∨ (∃ b, st = some b ∧ x ∈ b)
  | [], none => by simp [replaceTagsAux]
  | [], some buf => by
      intro h
      simp [replaceTagsAux] at h
      exact Or.inr (Or.inr ⟨buf, rfl, h⟩)
  | c :: cs, none => by
      intro h
      simp only [replaceTagsAux] at h
      by_cases hc : c = '<'
      · simp [hc] at h
        rcases mem_replaceTagsAux cs (some ['<']) h with h' | h' | ⟨b, hb, hx⟩
        · exact Or.inl (List.mem_cons_of_mem _ h')
        · exact Or.inr (Or.inl h')
        · cases hb
          simp at hx
          exact Or.inl (by simp [hx, hc])
      · simp [hc] at h
        rcases h with rfl | h'
        · exact Or.inl (List.mem_cons_self _ _)
        · rcases mem_replaceTagsAux cs none h' with h'' | h'' | ⟨b, hb, _⟩
          · exact Or.inl (List.mem_cons_of_mem _ h'')
          · exact Or.inr (Or.inl h'')
          · cases hb
  | c :: cs, some buf => by
      intro h
      simp only [replaceTagsAux] at h
      by_cases hc : c = '>'
      · simp [hc] at h
        rcases h with rfl | h'
        · exact Or.inr (Or.inl rfl)
        · rcases mem_replaceTagsAux cs none h' with h'' | h'' | ⟨b, hb, _⟩
          · exact Or.inl (List.mem_cons_of_mem _ h'')
          · exact Or.inr (Or.inl h'')
          · cases hb
      · simp [hc] at h
        rcases mem_replaceTagsAux cs (some (c :: buf)) h with h' | h' | ⟨b, hb, hx⟩
        · exact Or.inl (List.mem_cons_of_mem _ h')
        · exact Or.inr (Or.inl h')
        · cases hb
          rcases List.mem_cons.1 hx with rfl | hx'
          · exact Or.inl (List.mem_cons_self _ _)
          · exact Or.inr (Or.inr ⟨buf, rfl, hx'⟩)

lemma mem_replaceTags {x : Char} {l : List Char} (h : x ∈ replaceTags l) :
    x ∈ l ∨ x = ' ' := by
  rcases mem_replaceTagsAux l none h with h' | h' | ⟨b, hb, _⟩
  · exact Or.inl h'
  · exact Or.inr h'
  · cases hb

lemma noTag_replaceTagsAux :
    ∀ (l : List Char) (st : Option (List Char)),
      (∀ b, st = some b → '>' ∉ b) → noTag (replaceTagsAux st l) = true
  | [], none => fun _ => rfl
  | [], some buf => by
      intro h
      simp only [replaceTagsAux]
      exact noTag_of_not_mem_gt (fun hm => h buf rfl (List.mem_reverse.1 hm))
  | c :: cs, none => by
      intro _
      simp only [replaceTagsAux]
      by_cases hc : c = '<'
      · simp only [hc, if_pos rfl]
        exact noTag_replaceTagsAux cs (some ['<'])
          (fun b hb => by cases hb; simp)
      · rw [if_neg hc, noTag_cons]
        simp [hc, noTag_replaceTagsAux cs none (fun b hb => by cases hb)]
  | c :: cs, some buf => by
      intro h
      simp only [replaceTagsAux]
      by_cases hc : c = '>'
      · rw [if_pos hc, noTag_cons]
        simp [noTag_replaceTagsAux cs none (fun b hb => by cases hb)]
      · rw [if_neg hc]
        exact noTag_replaceTagsAux cs (some (c :: buf)) (fun b hb => by
          cases hb
          intro hm
          rcases List.mem_cons.1 hm with h' | h'
          · exact hc h'.symm
          · exact h buf rfl h')

lemma noTag_replaceTags (l : List Char) : noTag (replaceTags l) = true :=
  noTag_replaceTagsAux l none (fun b hb => by cases hb)

lemma replaceTagsAux_flush {buf : List Char} :
    ∀ (l : List Char), '>' ∉ l → replaceTagsAux (some buf) l = buf.reverse ++ l
  | [], _ => by simp [replaceTagsAux]
  | c :: cs, h => by
      have hc : c ≠ '>' := fun hc => h (hc ▸ List.mem_cons_self _ _)
      simp only [replaceTagsAux, if_neg hc]
      rw [replaceTagsAux_flush cs (fun hm => h (List.mem_cons_of_mem _ hm))]
      simp

lemma replaceTags_id {l : List Char} (h : noTag l = true) : replaceTags l = l := by
  induction l with
  | nil => rfl
  | cons c cs ih =>
      rw [noTag_cons, Bool.and_eq_true] at h
      show replaceTagsAux none (c :: cs) = c :: cs
      by_cases hc : c = '<'
      · simp only [replaceTagsAux, hc, if_pos rfl]
        have hgt : '>' ∉ cs := by
          have := h.1
          simp [hc] at this
          exact this
        rw [replaceTagsAux_flush cs hgt]
        simp [hc]
      · simp only [replaceTagsAux, if_neg hc]
        exact congrArg (c :: ·) (ih h.2)

lemma mem_collapseWsAux {x : Char} :
    ∀ (b : Bool) (l : List Char), x ∈ collapseWsAux b l → x ∈ l ∨ x = ' '
  | true, [] => by simp [collapseWsAux]
  | false, [] => by simp [collapseWsAux]
  | true, c :: cs => by
      intro h
      simp only [collapseWsAux] at h
      by_cases hw : isJsWs c
      · rw [if_pos hw] at h
        rcases mem_collapseWsAux true cs h with h' | h'
        · exact Or.inl (List.mem_cons_of_mem _ h')
        · exact Or.inr h'
      · rw [if_neg hw] at h
        rcases List.mem_cons.1 h with rfl | h'
        · exact Or.inl (List.mem_cons_self _ _)
        · rcases mem_collapseWsAux false cs h' with h'' | h''
          · exact Or.inl (List.mem_cons_of_mem _ h'')
          · exact Or.inr h''
  | false, c :: cs => by
      intro h
      simp only [collapseWsAux] at h
      by_cases hw : isJsWs c
      · rw [if_pos hw] at h
        rcases List.mem_cons.1 h with rfl | h'
        · exact Or.inr rfl
        · rcases mem_collapseWsAux true cs h' with h'' | h''
          · exact Or.inl (List.mem_cons_of_mem _ h'')
          · exact Or.inr h''
      · rw [if_neg hw] at h
        rcases List.mem_cons.1 h with rfl | h'
        · exact Or.inl (List.mem_cons_self _ _)
        · rcases mem_collapseWsAux false cs h' with h'' | h''
          · exact Or.inl (List.mem_cons_of_mem _ h'')
          · exact Or.inr h''

lemma noTag_cons_of {c : Char} {cs : List Char} (hc : c ≠ '<')
    (h : noTag cs = true) : noTag (c :: cs) = true := by
  rw [noTag_cons]
  simp [hc, h]

lemma noTag_collapseWsAux :
    ∀ (b : Bool) (l : List Char), noTag l = true → noTag (collapseWsAux b l) = true
  | true, [] => fun _ => rfl
  | false, [] => fun _ => rfl
  | true, c :: cs => by
      intro h
      have hcs := noTag_cons_elim h
      simp only [collapseWsAux]
      by_cases hw : isJsWs c
      · rw [if_pos hw]
        exact noTag_collapseWsAux true cs hcs
      · rw [if_neg hw]
        by_cases hc : c = '<'
        · subst hc
          rw [noTag_cons, Bool.and_eq_true]
          have h1 : '>' ∉ cs := by
            rw [noTag_cons, Bool.and_eq_true] at h
            simpa using h.1
          refine ⟨?_, noTag_collapseWsAux false cs hcs⟩
          rw [if_pos rfl, decide_eq_true_iff]
          intro hm
          rcases mem_collapseWsAux false cs hm with h' | h'
          · exact h1 h'
          · exact absurd h' (by decide)
        · exact noTag_cons_of hc (noTag_collapseWsAux false cs hcs)
  | false, c :: cs => by
      intro h
      have hcs := noTag_cons_elim h
      simp only [collapseWsAux]
      by_cases hw : isJsWs c
      · rw [if_pos hw]
        exact noTag_cons_of (by decide) (noTag_collapseWsAux true cs hcs)
      · rw [if_neg hw]
        by_cases hc : c = '<'
        · subst hc
          rw [noTag_cons, Bool.and_eq_true]
          have h1 : '>' ∉ cs := by
            rw [noTag_cons, Bool.and_eq_true] at h
            simpa using h.1
          refine ⟨?_, noTag_collapseWsAux false cs hcs⟩
          rw [if_pos rfl, decide_eq_true_iff]
          intro hm
          rcases mem_collapseWsAux false cs hm with h' | h'
          · exact h1 h'
          · exact absurd h' (by decide)
        · exact noTag_cons_of hc (noTag_collapseWsAux false cs hcs)

lemma allWsSp_cons (c : Char) (l : List Char) :
    allWsSp (c :: l) = ((!(isJsWs c) || c = ' ') && allWsSp l) := by
  simp [allWsSp]

lemma allWsSp_collapseWsAux :
    ∀ (b : Bool) (l : List Char), allWsSp (collapseWsAux b l) = true
  | true, [] => rfl
  | false, [] => rfl
  | true, c :: cs => by
      simp only [collapseWsAux]
      by_cases hw : isJsWs c
      · rw [if_pos hw]
        exact allWsSp_collapseWsAux true cs
      · rw [if_neg hw, allWsSp_cons]
        simp [hw, allWsSp_collapseWsAux false cs]
  | false, c :: cs => by
      simp only [collapseWsAux]
      by_cases hw : isJsWs c
      · rw [if_pos hw, allWsSp_cons]
        simp [allWsSp_collapseWsAux true cs]
      · rw [if_neg hw, allWsSp_cons]
        simp [hw, allWsSp_collapseWsAux false cs]

lemma headNonWs_collapseWsAux_true :
    ∀ (l : List Char), headNonWs (collapseWsAux true l) = true
  | [] => rfl
  | c :: cs => by
      simp only [collapseWsAux]
      by_cases hw : isJsWs c
      · rw [if_pos hw]
        exact headNonWs_collapseWsAux_true cs
      · rw [if_neg hw]
        simpa [headNonWs] using hw

lemma noAdjWs_collapseWsAux :
    ∀ (b : Bool) (l : List Char), noAdjWs (collapseWsAux b l) = true
  | true, [] => rfl
  | false, [] => rfl
  | true, c :: cs => by
      simp only [collapseWsAux]
      by_cases hw : isJsWs c
      · rw [if_pos hw]
        exact noAdjWs_collapseWsAux true cs
      · rw [if_neg hw, noAdjWs_cons]
        simp [hw, noAdjWs_collapseWsAux false cs]
  | false, c :: cs => by
      simp only [collapseWsAux]
      by_cases hw : isJsWs c
      · rw [if_pos hw, noAdjWs_cons]
        simp [noAdjWs_collapseWsAux true cs, headNonWs_collapseWsAux_true cs]
      · rw [if_neg hw, noAdjWs_cons]
        simp [hw, noAdjWs_collapseWsAux false cs]

lemma collapseWsAux_id :
    ∀ (l : List Char), allWsSp l = true → noAdjWs l = true →
      collapseWsAux false l = l ∧ (headNonWs l = true → collapseWsAux true l = l)
  | [] => fun _ _ => ⟨rfl, fun _ => rfl⟩
  | c :: cs => by
      intro hsp hadj
      rw [allWsSp_cons, Bool.and_eq_true] at hsp
      rw [noAdjWs_cons, Bool.and_eq_true] at hadj
      have ih := collapseWsAux_id cs hsp.2 hadj.2
      by_cases hw : isJsWs c
      · have hc : c = ' ' := by
          rcases Bool.or_eq_true_iff.1 hsp.1 with h' | h'
          · rw [hw] at h'; cases h'
          · exact of_decide_eq_true h'
        have hhd : headNonWs cs = true := by
          rcases Bool.or_eq_true_iff.1 hadj.1 with h' | h'
          · rw [hw] at h'; cases h'
          · exact h'
        subst hc
        constructor
        · show collapseWsAux false (' ' :: cs) = ' ' :: cs
          simp only [collapseWsAux, if_pos (show isJsWs ' ' = true by decide)]
          rw [ih.2 hhd]
        · intro hhd'
          have : headNonWs (' ' :: cs) = false := by
            simp [headNonWs]
            decide
          rw [hhd'] at this
          cases this
      · constructor
        · simp only [collapseWsAux, if_neg hw, ih.1]
        · intro _
          simp only [collapseWsAux, if_neg hw, ih.1]

lemma allWsSp_of_between {l₁ l₂ : List Char} (h : l₁ <:+: l₂)
    (hs : allWsSp l₂ = true) : allWsSp l₁ = true := by
  rw [allWsSp, List.all_eq_true] at hs ⊢
  exact fun c hc => hs c (h.subset hc)

lemma headNonWs_append_left {a b : List Char}
    (h : headNonWs (a ++ b) = true) : headNonWs a = true := by
  cases a with
  | nil => rfl
  | cons c a' => exact h

lemma noAdjWs_append_right {a b : List Char}
    (h : noAdjWs (a ++ b) = true) : noAdjWs b = true := by
  induction a with
  | nil => exact h
  | cons c a' ih =>
      rw [List.cons_append, noAdjWs_cons, Bool.and_eq_true] at h
      exact ih h.2

lemma noAdjWs_append_left {a b : List Char}
    (h : noAdjWs (a ++ b) = true) : noAdjWs a = true := by
  induction a with
  | nil => rfl
  | cons c a' ih =>
      rw [List.cons_append, noAdjWs_cons, Bool.and_eq_true] at h
      rw [noAdjWs_cons, Bool.and_eq_true]
      refine ⟨?_, ih h.2⟩
      rcases Bool.or_eq_true_iff.1 h.1 with h' | h'
      · simp [h']
      · rw [Bool.or_eq_true_iff]
        exact Or.inr (headNonWs_append_left h')

lemma noAdjWs_of_between {l₁ l₂ : List Char} (h : l₁ <:+: l₂)
    (hs : noAdjWs l₂ = true) : noAdjWs l₁ = true := by
  rcases h with ⟨s, t, rfl⟩
  rw [List.append_assoc] at hs
  exact noAdjWs_append_left (noAdjWs_append_right hs)

lemma trimChars_decomp (l : List Char) :
    l = l.takeWhile isJsWs ++ trimChars l
        ++ ((l.dropWhile isJsWs).reverse.takeWhile isJsWs).reverse := by
  conv_lhs => rw [← List.takeWhile_append_dropWhile (p := isJsWs) (l := l)]
  rw [List.append_assoc]
  congr 1
  conv_lhs => rw [← List.reverse_reverse (l.dropWhile isJsWs)]
  conv_lhs =>
    rw [← List.takeWhile_append_dropWhile
          (p := isJsWs) (l := (l.dropWhile isJsWs).reverse)]
  rw [List.reverse_append]
  rfl

lemma trimChars_between (l : List Char) : trimChars l <:+: l :=
  ⟨l.takeWhile isJsWs, ((l.dropWhile isJsWs).reverse.takeWhile isJsWs).reverse,
    (trimChars_decomp l).symm⟩

lemma headNonWs_dropWhile (l : List Char) :
    headNonWs (l.dropWhile isJsWs) = true := by
  induction l with
  | nil => rfl
  | cons c cs ih =>
      by_cases hw : isJsWs c
      · simpa [List.dropWhile, hw] using ih
      · simp [List.dropWhile, hw, headNonWs]

lemma dropWhile_eq_self_of_headNonWs {l : List Char}
    (h : headNonWs l = true) : l.dropWhile isJsWs = l := by
  cases l with
  | nil => rfl
  | cons c cs =>
      have : isJsWs c = false := by
        simp [headNonWs] at h
        simp [h]
      simp [List.dropWhile, this]

lemma headNonWs_reverse_trimChars (l : List Char) :
    headNonWs (trimChars l).reverse = true := by
  rw [trimChars, List.reverse_reverse]
  exact headNonWs_dropWhile _

lemma headNonWs_trimChars (l : List Char) :
    headNonWs (trimChars l) = true := by
  have hd : headNonWs (l.dropWhile isJsWs) = true := headNonWs_dropWhile l
  have hdec : l.dropWhile isJsWs
      = trimChars l ++ ((l.dropWhile isJsWs).reverse.takeWhile isJsWs).reverse := by
    conv_lhs => rw [← List.reverse_reverse (l.dropWhile isJsWs)]
    conv_lhs =>
      rw [← List.takeWhile_append_dropWhile
            (p := isJsWs) (l := (l.dropWhile isJsWs).reverse)]
    rw [List.reverse_append]
    rfl
  rw [hdec] at hd
  exact headNonWs_append_left hd

lemma trimChars_id {l : List Char} (h1 : headNonWs l = true)
    (h2 : headNonWs l.reverse = true) : trimChars l = l := by
  rw [trimChars, dropWhile_eq_self_of_headNonWs h1,
    dropWhile_eq_self_of_headNonWs h2, List.reverse_reverse]

lemma stripHtml_idem (l : List Char) : stripHtml (stripHtml l) = stripHtml l := by
  rcases em (l.isEmpty = true) with h0 | h0
  · have h1 : stripHtml l = [] := by rw [stripHtml, if_pos h0]
    rw [h1]
    rfl
  · have h1 : stripHtml l = trimChars (collapseWs (replaceTags l)) := by
      rw [stripHtml, if_neg h0]
    rw [h1]
    have hnt : noTag (trimChars (collapseWs (replaceTags l))) = true :=
      noTag_of_between (trimChars_between _)
        (noTag_collapseWsAux false _ (noTag_replaceTags l))
    have hsp : allWsSp (trimChars (collapseWs (replaceTags l))) = true :=
      allWsSp_of_between (trimChars_between _) (allWsSp_collapseWsAux false _)
    have hadj : noAdjWs (trimChars (collapseWs (replaceTags l))) = true :=
      noAdjWs_of_between (trimChars_between _) (noAdjWs_collapseWsAux false _)
    have hhd := headNonWs_trimChars (collapseWs (replaceTags l))
    have hlast := headNonWs_reverse_trimChars (collapseWs (replaceTags l))
    rcases em ((trimChars (collapseWs (replaceTags l))).isEmpty = true) with he | he
    · rw [stripHtml, if_pos he]
      rw [List.isEmpty_iff] at he
      rw [he]
    · rw [stripHtml, if_neg he]
      rw [show replaceTags (trimChars (collapseWs (replaceTags l)))
            = trimChars (collapseWs (replaceTags l)) from replaceTags_id hnt]
      rw [show collapseWs (trimChars (collapseWs (replaceTags l)))
            = trimChars (collapseWs (replaceTags l)) from
          (collapseWsAux_id _ hsp hadj).1]
      exact trimChars_id hhd hlast

/-- C10: the HTML-stripping function `stripHtml` is idempotent: a second
application leaves the output of a first application unchanged, for every
input string. -/
theorem stripHtml_idempotent (s : String) :
    stripHtmlS (stripHtmlS s) = stripHtmlS s := by
  show (⟨stripHtml (stripHtml s.data)⟩ : String) = ⟨stripHtml s.data⟩
  rw [stripHtml_idem]

/-- C2: whenever the intercepted traffic of a page contains at least one
job-shaped record, the page's extracted records are exactly the
normalization of the intercepted array, and the embedded-hydration,
JSON-LD and DOM strategies contribute nothing regardless of their
contents. -/
theorem strategyChainA_api_priority (captured : List ApiJob)
    (embedded jsonld dom : List Job) (h : captured ≠ []) :
    strategyChainA captured embedded jsonld dom
      = captured.map normalizeApiJobA := by
  have hlen : 0 < captured.length := List.length_pos.2 h
  have hmap : (captured.map normalizeApiJobA).length ≠ 0 := by
    rw [List.length_map]
    omega
  simp only [strategyChainA, if_pos hlen, if_neg hmap]

/-- Witness for C2 at a concrete page: one intercepted job, with different
records present for the hydration/JSON-LD/DOM strategies. -/
theorem strategyChainA_api_priority_witness :
    strategyChainA [{ emptyApiJob with title := "Engineer", url := "https://www.monster.com/job-openings/1" }]
        [{ normalizeApiJobA emptyApiJob with title := "FromHydration" }]
        [{ normalizeApiJobA emptyApiJob with title := "FromJsonLd" }]
        [{ normalizeApiJobA emptyApiJob with title := "FromDom" }]
      = [normalizeApiJobA { emptyApiJob with title := "Engineer", url := "https://www.monster.com/job-openings/1" }] :=
  strategyChainA_api_priority _ _ _ _ (by decide)

/-- C9: salary normalization maps `{value:{minValue:50000,maxValue:70000},
currency:"USD"}` to `"50000 - 70000 USD"` and an absent salary source to
`"Not specified"`, in both the JSON-LD parser (draft A) and the draft-B
Normalizer. -/
theorem salary_normalization_examples :
    (parseJobPosting salaryLd).salary = "50000 - 70000 USD"
  ∧ (parseJobPosting emptyLdJobPosting).salary = "Not specified"
  ∧ (normalizeMonsterJob (some salaryCandB)).map Job.salary
      = some "50000 - 70000 USD"
  ∧ (normalizeMonsterJob (some noSalaryCandB)).map Job.salary
      = some "Not specified" := by
  decide

/-- C3 counterexample: a candidate whose URL is derivable but whose title
is not is nevertheless dropped (normalized to null) by the draft-B
Normalizer, contradicting "every candidate with a derivable title or a
derivable URL produces a JobRecord". -/
theorem normalizeMonsterJob_drops_candidate_with_url_but_no_title :
    derivedTitleB urlOnlyCand = ""
  ∧ derivedUrlB urlOnlyCand ≠ ""
  ∧ normalizeMonsterJob (some urlOnlyCand) = none := by
  decide

/-- C3 amended: the Normalizer returns null exactly when the candidate
yields no usable title; a derivable URL alone does not save a candidate.
When a title is derivable, a record is produced carrying that title and
the derived URL. -/
theorem normalizeMonsterJob_null_iff_no_title (c : MJCandidate) :
    (normalizeMonsterJob (some c) = none ↔ derivedTitleB c = "")
  ∧ (derivedTitleB c ≠ "" → ∃ r, normalizeMonsterJob (some c) = some r
      ∧ r.title = derivedTitleB c ∧ r.url = derivedUrlB c) := by
  by_cases h : derivedTitleB c = ""
  · refine ⟨⟨fun _ => h, fun _ => ?_⟩, fun h' => absurd h h'⟩
    simp [normalizeMonsterJob, h]
  · have htitle : (normalizeMonsterJob (some c)).map Job.title
        = some (derivedTitleB c) := by
      simp [normalizeMonsterJob, h]
    have hurl : (normalizeMonsterJob (some c)).map Job.url
        = some (derivedUrlB c) := by
      simp [normalizeMonsterJob, h]
    have hne : (normalizeMonsterJob (some c)).isSome = true := by
      simp [normalizeMonsterJob, h]
    rcases Option.isSome_iff_exists.1 hne with ⟨r, hr⟩
    refine ⟨⟨fun hn => ?_, fun h' => absurd h' h⟩, fun _ => ⟨r, hr, ?_, ?_⟩⟩
    · rw [hn] at hr; cases hr
    · rw [hr] at htitle; simpa using htitle
    · rw [hr] at hurl; simpa using hurl

/-- Witness for the amended C3 at a concrete candidate with a derivable
title. -/
theorem normalizeMonsterJob_null_iff_no_title_witness :
    derivedTitleB titledCand ≠ ""
  ∧ ∃ r, normalizeMonsterJob (some titledCand) = some r
      ∧ r.title = derivedTitleB titledCand ∧ r.url = derivedUrlB titledCand :=
  ⟨by decide, (normalizeMonsterJob_null_iff_no_title titledCand).2 (by decide)⟩

lemma enrichBatchesFuel_eq (fetch : String → FetchOutcome) :
    ∀ (fuel : Nat) (jobs : List Job), jobs.length ≤ fuel →
      enrichBatchesFuel fetch fuel jobs
        = (jobs.map (fun j => (enrichOne fetch j).1),
           (jobs.map (fun j => (enrichOne fetch j).2)).sum) := by
  intro fuel
  induction fuel with
  | zero =>
      intro jobs h
      have : jobs = [] := List.length_eq_zero.1 (Nat.le_zero.1 h)
      subst this
      rfl
  | succ n ih =>
      intro jobs h
      cases jobs with
      | nil => rfl
      | cons j js =>
          have hlen : ((j :: js).drop 10).length ≤ n := by
            rw [List.length_drop]
            simp only [List.length_cons] at h ⊢
            omega
          simp only [enrichBatchesFuel]
          rw [ih _ hlen]
          simp only [List.map_map, Function.comp_def, Prod.mk.injEq]
          constructor
          · rw [← List.map_append, List.take_append_drop]
          · rw [← List.sum_append, ← List.map_append, List.take_append_drop]

lemma enrichOne_fst_blocked {fetch : String → FetchOutcome} {j : Job}
    (hu : j.url ≠ "") (hb : fetch j.url = .blocked) :
    enrichOne fetch j = (j, 1) := by
  rw [enrichOne, if_neg hu, hb]

lemma enrichOne_snd_eq {fetch : String → FetchOutcome} (j : Job) :
    (enrichOne fetch j).2
      = if j.url ≠ "" ∧ fetch j.url = .blocked then 1 else 0 := by
  rw [enrichOne]
  by_cases hu : j.url = ""
  · simp [hu]
  · rw [if_neg hu]
    cases hf : fetch j.url with
    | blocked => simp [hu, hf]
    | success dh dt jt =>
        by_cases hd : dh ≠ "" <;> simp [hu, hf, hd]
    | failure => simp [hu, hf]

lemma sum_enrichOne_snd (fetch : String → FetchOutcome) (js : List Job) :
    (js.map (fun j => (enrichOne fetch j).2)).sum
      = (js.filter
          (fun j => decide (j.url ≠ "" ∧ fetch j.url = .blocked))).length := by
  induction js with
  | nil => rfl
  | cons j js ih =>
      rw [List.map_cons, List.sum_cons, enrichOne_snd_eq j,
        List.filter_cons, ih]
      by_cases hb : j.url ≠ "" ∧ fetch j.url = .blocked
      · simp [hb]
        omega
      · simp [hb]

/-- C8: enrichment never removes a record (output length equals input
length for every fetch oracle); the blocked counter equals the number of
records whose detail fetch is blocked; and a record whose detail fetch is
blocked appears in the output at its own position, completely unchanged
(its snippet-derived descriptions included). -/
theorem enrichment_blocked_keeps_record (fetch : String → FetchOutcome)
    (jobs : List Job) :
    (enrichJobsWithFullDescriptions fetch jobs).1.length = jobs.length
  ∧ (enrichJobsWithFullDescriptions fetch jobs).2
      = (jobs.filter
          (fun j => decide (j.url ≠ "" ∧ fetch j.url = .blocked))).length
  ∧ ∀ (i : Nat) (j : Job), jobs[i]? = some j → j.url ≠ "" →
      fetch j.url = .blocked →
      (enrichJobsWithFullDescriptions fetch jobs).1[i]? = some j := by
  rw [enrichJobsWithFullDescriptions,
    enrichBatchesFuel_eq fetch jobs.length jobs (le_refl _)]
  refine ⟨by simp, sum_enrichOne_snd fetch jobs, ?_⟩
  intro i j hij hu hb
  simp only [List.getElem?_map, hij, Option.map_some']
  rw [enrichOne_fst_blocked hu hb]

/-- Witness for C8: a concrete blocked enrichment keeps the record
unchanged at its position. -/
theorem enrichment_blocked_keeps_record_witness :
    snippetJob.url ≠ ""
  ∧ blockedFetch snippetJob.url = .blocked
  ∧ (enrichJobsWithFullDescriptions blockedFetch [snippetJob]).1[0]?
      = some snippetJob :=
  ⟨by decide, by decide,
    (enrichment_blocked_keeps_record blockedFetch [snippetJob]).2.2 0
      snippetJob (by decide) (by decide) (by decide)⟩

lemma dedupA_seen_subset : ∀ (js : List Job) (seen : List String),
    seen ⊆ (dedupA seen js).2
  | [], _ => fun _ h => h
  | j :: js, seen => by
      rw [dedupA]
      by_cases h0 : j.url = ""
      · rw [if_pos h0]
        exact dedupA_seen_subset js seen
      · rw [if_neg h0]
        by_cases hm : j.url ∈ seen
        · rw [if_pos hm]
          exact dedupA_seen_subset js seen
        · rw [if_neg hm]
          exact fun x hx => dedupA_seen_subset js (j.url :: seen)
            (List.mem_cons_of_mem _ hx)

lemma dedupA_mem_out : ∀ (js : List Job) (seen : List String) (j : Job),
    j ∈ (dedupA seen js).1 → j.url ≠ "" →
    j.url ∈ (dedupA seen js).2 ∧ j.url ∉ seen
  | [], seen, j => by simp [dedupA]
  | k :: js, seen, j => by
      rw [dedupA]
      by_cases h0 : k.url = ""
      · rw [if_pos h0]
        intro hmem hne
        rcases List.mem_cons.1 hmem with rfl | h'
        · exact absurd h0 hne
        · exact dedupA_mem_out js seen j h' hne
      · rw [if_neg h0]
        by_cases hm : k.url ∈ seen
        · rw [if_pos hm]
          exact dedupA_mem_out js seen j
        · rw [if_neg hm]
          intro hmem hne
          rcases List.mem_cons.1 hmem with rfl | h'
          · exact ⟨dedupA_seen_subset js (j.url :: seen)
              (List.mem_cons_self _ _), hm⟩
          · rcases dedupA_mem_out js (k.url :: seen) j h' hne with ⟨h1, h2⟩
            exact ⟨h1, fun hs => h2 (List.mem_cons_of_mem _ hs)⟩

lemma dedupA_pairwise : ∀ (js : List Job) (seen : List String),
    List.Pairwise urlDistinct (dedupA seen js).1
  | [], _ => List.Pairwise.nil
  | k :: js, seen => by
      rw [dedupA]
      by_cases h0 : k.url = ""
      · rw [if_pos h0]
        refine List.Pairwise.cons ?_ (dedupA_pairwise js seen)
        intro b _ hk
        exact absurd h0 hk
      · rw [if_neg h0]
        by_cases hm : k.url ∈ seen
        · rw [if_pos hm]
          exact dedupA_pairwise js seen
        · rw [if_neg hm]
          refine List.Pairwise.cons ?_ (dedupA_pairwise js (k.url :: seen))
          intro b hb _ hbne
          intro heq
          rcases dedupA_mem_out js (k.url :: seen) b hb hbne with ⟨_, h2⟩
          exact h2 (heq ▸ List.mem_cons_self _ _)

lemma dedupA_length : ∀ (js : List Job) (seen : List String),
    (dedupA seen js).1.length ≤ js.length
  | [], _ => le_refl _
  | k :: js, seen => by
      rw [dedupA]
      by_cases h0 : k.url = ""
      · rw [if_pos h0]
        simpa using dedupA_length js seen
      · rw [if_neg h0]
        by_cases hm : k.url ∈ seen
        · rw [if_pos hm]
          exact le_trans (dedupA_length js seen) (Nat.le_succ _)
        · rw [if_neg hm]
          simpa using dedupA_length js (k.url :: seen)

lemma enrichOne_url (fetch : String → FetchOutcome) (j : Job) :
    (enrichOne fetch j).1.url = j.url := by
  rw [enrichOne]
  by_cases hu : j.url = ""
  · rw [if_pos hu]
  · rw [if_neg hu]
    cases fetch j.url with
    | blocked => rfl
    | success dh dt jt =>
        by_cases hd : dh ≠ ""
        · simp [hd]
        · simp [hd]
    | failure => rfl

lemma enrich_eq_map (fetch : String → FetchOutcome) (l : List Job) :
    (enrichJobsWithFullDescriptions fetch l).1
      = l.map (fun j => (enrichOne fetch j).1) := by
  rw [enrichJobsWithFullDescriptions, enrichBatchesFuel_eq fetch _ _ (le_refl _)]

lemma enrich_length (fetch : String → FetchOutcome) (l : List Job) :
    (enrichJobsWithFullDescriptions fetch l).1.length = l.length := by
  rw [enrich_eq_map, List.length_map]

lemma enrich_pairwise {fetch : String → FetchOutcome} {l : List Job}
    (h : List.Pairwise urlDistinct l) :
    List.Pairwise urlDistinct (enrichJobsWithFullDescriptions fetch l).1 := by
  rw [enrich_eq_map, List.pairwise_map]
  refine h.imp ?_
  intro a b hab
  intro h1 h2
  rw [enrichOne_url] at h1
  rw [enrichOne_url] at h2
  rw [enrichOne_url, enrichOne_url]
  exact hab h1 h2

lemma enrich_mem {fetch : String → FetchOutcome} {l : List Job} {j : Job}
    (h : j ∈ (enrichJobsWithFullDescriptions fetch l).1) :
    ∃ j₀ ∈ l, j.url = j₀.url := by
  rw [enrich_eq_map] at h
  rcases List.mem_map.1 h with ⟨j₀, hj₀, rfl⟩
  exact ⟨j₀, hj₀, enrichOne_url fetch j₀⟩

lemma processPageA_seen_subset (m : Int) (f : String → FetchOutcome)
    (st : CrawlStateA) (p : List Job) :
    st.seen ⊆ (processPageA m f st p).2.seen := by
  rw [processPageA]
  by_cases hp : p.length = 0
  · rw [if_pos hp]
    exact fun _ h => h
  · rw [if_neg hp]
    exact dedupA_seen_subset _ _

lemma processPageA_out_mem {m : Int} {f : String → FetchOutcome}
    {st : CrawlStateA} {p : List Job} {j : Job}
    (h : j ∈ (processPageA m f st p).1) (hne : j.url ≠ "") :
    j.url ∈ (processPageA m f st p).2.seen ∧ j.url ∉ st.seen := by
  rw [processPageA] at h ⊢
  by_cases hp : p.length = 0
  · rw [if_pos hp] at h
    cases h
  · rw [if_neg hp] at h ⊢
    rcases enrich_mem h with ⟨j₀, hj₀, hurl⟩
    rw [hurl] at hne ⊢
    exact dedupA_mem_out _ _ _ hj₀ hne

lemma processPageA_pairwise (m : Int) (f : String → FetchOutcome)
    (st : CrawlStateA) (p : List Job) :
    List.Pairwise urlDistinct (processPageA m f st p).1 := by
  rw [processPageA]
  by_cases hp : p.length = 0
  · rw [if_pos hp]
    exact List.Pairwise.nil
  · rw [if_neg hp]
    exact enrich_pairwise (dedupA_pairwise _ _)

lemma processPageA_total (m : Int) (f : String → FetchOutcome)
    (st : CrawlStateA) (p : List Job) :
    (processPageA m f st p).2.total
      = st.total + (processPageA m f st p).1.length := by
  rw [processPageA]
  by_cases hp : p.length = 0
  · rw [if_pos hp]
    rfl
  · rw [if_neg hp]

lemma processPageA_len_le {m : Int} (hm : 0 < m) (f : String → FetchOutcome)
    (st : CrawlStateA) (p : List Job) :
    (processPageA m f st p).1.length ≤ (m - (st.total : Int)).toNat := by
  rw [processPageA]
  by_cases hp : p.length = 0
  · rw [if_pos hp]
    exact Nat.zero_le _
  · rw [if_neg hp]
    rw [enrich_length]
    refine le_trans (dedupA_length _ _) ?_
    rw [if_pos hm]
    rw [List.length_take]
    exact min_le_left _ _

lemma runAAux_invariant (m : Int) (f : String → FetchOutcome) :
    ∀ (ps : List (List Job)) (st : CrawlStateA),
      List.Pairwise urlDistinct (runAAux m f st ps)
      ∧ ∀ j ∈ runAAux m f st ps, j.url ≠ "" → j.url ∉ st.seen
  | [], st => ⟨List.Pairwise.nil, by simp [runAAux]⟩
  | p :: ps, st => by
      rw [runAAux]
      have ih := runAAux_invariant m f ps (processPageA m f st p).2
      constructor
      · rw [List.pairwise_append]
        refine ⟨processPageA_pairwise m f st p, ih.1, ?_⟩
        intro a ha b hb
        intro h1 h2 heq
        have ha' := (processPageA_out_mem ha h1).1
        have hb' := ih.2 b hb h2
        rw [heq] at ha'
        exact hb' ha'
      · intro j hj hne
        rcases List.mem_append.1 hj with hj' | hj'
        · exact (processPageA_out_mem hj' hne).2
        · intro hs
          exact ih.2 j hj' hne (processPageA_seen_subset m f st p hs)

lemma runAAux_len_le (m : Int) (hm : 0 < m) (f : String → FetchOutcome) :
    ∀ (ps : List (List Job)) (st : CrawlStateA),
      (runAAux m f st ps).length ≤ (m - (st.total : Int)).toNat
  | [], st => Nat.zero_le _
  | p :: ps, st => by
      rw [runAAux, List.length_append]
      have h1 := processPageA_len_le hm f st p
      have h2 := runAAux_len_le m hm f ps (processPageA m f st p).2
      have h3 := processPageA_total m f st p
      omega

lemma keyB_of_url_ne {j : Job} (h : j.url ≠ "") : keyB j = j.url := by
  rw [keyB, jsOr, if_neg h]

lemma selectB_seen_subset (m : Int) : ∀ (js : List Job) (seen : List String)
    (c : Nat), seen ⊆ (selectB m seen c js).2
  | [], _, _ => fun _ h => h
  | j :: js, seen, c => by
      rw [selectB]
      by_cases hcap : 0 < m ∧ m ≤ (c : Int)
      · rw [if_pos hcap]
        exact fun _ h => h
      · rw [if_neg hcap]
        by_cases hm : keyB j ∈ seen
        · rw [if_pos hm]
          exact selectB_seen_subset m js seen c
        · rw [if_neg hm]
          exact fun x hx => selectB_seen_subset m js (keyB j :: seen) (c + 1)
            (List.mem_cons_of_mem _ hx)

lemma selectB_mem_out (m : Int) : ∀ (js : List Job) (seen : List String)
    (c : Nat) (j : Job), j ∈ (selectB m seen c js).1 →
    keyB j ∈ (selectB m seen c js).2 ∧ keyB j ∉ seen
  | [], seen, c, j => by simp [selectB]
  | k :: js, seen, c, j => by
      rw [selectB]
      by_cases hcap : 0 < m ∧ m ≤ (c : Int)
      · rw [if_pos hcap]
        intro h
        cases h
      · rw [if_neg hcap]
        by_cases hm : keyB k ∈ seen
        · rw [if_pos hm]
          exact selectB_mem_out m js seen c j
        · rw [if_neg hm]
          intro hmem
          rcases List.mem_cons.1 hmem with rfl | h'
          · exact ⟨selectB_seen_subset m js (keyB j :: seen) (c + 1)
              (List.mem_cons_self _ _), hm⟩
          · rcases selectB_mem_out m js (keyB k :: seen) (c + 1) j h'
              with ⟨h1, h2⟩
            exact ⟨h1, fun hs => h2 (List.mem_cons_of_mem _ hs)⟩

lemma selectB_pairwise (m : Int) : ∀ (js : List Job) (seen : List String)
    (c : Nat), List.Pairwise (fun a b => keyB a ≠ keyB b) (selectB m seen c js).1
  | [], _, _ => List.Pairwise.nil
  | k :: js, seen, c => by
      rw [selectB]
      by_cases hcap : 0 < m ∧ m ≤ (c : Int)
      · rw [if_pos hcap]
        exact List.Pairwise.nil
      · rw [if_neg hcap]
        by_cases hm : keyB k ∈ seen
        · rw [if_pos hm]
          exact selectB_pairwise m js seen c
        · rw [if_neg hm]
          refine List.Pairwise.cons ?_ (selectB_pairwise m js (keyB k :: seen) (c + 1))
          intro b hb heq
          rcases selectB_mem_out m js (keyB k :: seen) (c + 1) b hb with ⟨_, h2⟩
          exact h2 (heq ▸ List.mem_cons_self _ _)

lemma selectB_len_le (m : Int) (hm : 0 < m) : ∀ (js : List Job)
    (seen : List String) (c : Nat),
    (selectB m seen c js).1.length ≤ (m - (c : Int)).toNat
  | [], _, _ => Nat.zero_le _
  | k :: js, seen, c => by
      rw [selectB]
      by_cases hcap : 0 < m ∧ m ≤ (c : Int)
      · rw [if_pos hcap]
        exact Nat.zero_le _
      · rw [if_neg hcap]
        have hc : (c : Int) < m := by
          rcases not_and_or.1 hcap with h' | h'
          · exact absurd hm h'
          · omega
        by_cases hk : keyB k ∈ seen
        · rw [if_pos hk]
          exact selectB_len_le m hm js seen c
        · rw [if_neg hk]
          have := selectB_len_le m hm js (keyB k :: seen) (c + 1)
          simp only [List.length_cons]
          push_cast at this ⊢
          omega

lemma processPageB_seen_subset (m : Int) (st : CrawlStateB) (p : List Job) :
    st.seen ⊆ (processPageB m st p).2.seen := by
  rw [processPageB]
  by_cases hp : p.length = 0
  · rw [if_pos hp]
    exact fun _ h => h
  · rw [if_neg hp]
    exact selectB_seen_subset m p st.seen st.total

lemma processPageB_out_mem {m : Int} {st : CrawlStateB} {p : List Job}
    {j : Job} (h : j ∈ (processPageB m st p).1) :
    keyB j ∈ (processPageB m st p).2.seen ∧ keyB j ∉ st.seen := by
  rw [processPageB] at h ⊢
  by_cases hp : p.length = 0
  · rw [if_pos hp] at h
    cases h
  · rw [if_neg hp] at h ⊢
    exact selectB_mem_out m p st.seen st.total j h

lemma processPageB_pairwise (m : Int) (st : CrawlStateB) (p : List Job) :
    List.Pairwise (fun a b => keyB a ≠ keyB b) (processPageB m st p).1 := by
  rw [processPageB]
  by_cases hp : p.length = 0
  · rw [if_pos hp]
    exact List.Pairwise.nil
  · rw [if_neg hp]
    exact selectB_pairwise m p st.seen st.total

lemma processPageB_total (m : Int) (st : CrawlStateB) (p : List Job) :
    (processPageB m st p).2.total
      = st.total + (processPageB m st p).1.length := by
  rw [processPageB]
  by_cases hp : p.length = 0
  · rw [if_pos hp]
    rfl
  · rw [if_neg hp]

lemma processPageB_len_le {m : Int} (hm : 0 < m) (st : CrawlStateB)
    (p : List Job) :
    (processPageB m st p).1.length ≤ (m - (st.total : Int)).toNat := by
  rw [processPageB]
  by_cases hp : p.length = 0
  · rw [if_pos hp]
    exact Nat.zero_le _
  · rw [if_neg hp]
    exact selectB_len_le m hm p st.seen st.total

lemma runBAux_invariant (m : Int) :
    ∀ (ps : List (List Job)) (st : CrawlStateB),
      List.Pairwise (fun a b => keyB a ≠ keyB b) (runBAux m st ps)
      ∧ ∀ j ∈ runBAux m st ps, keyB j ∉ st.seen
  | [], st => ⟨List.Pairwise.nil, by simp [runBAux]⟩
  | p :: ps, st => by
      rw [runBAux]
      have ih := runBAux_invariant m ps (processPageB m st p).2
      constructor
      · rw [List.pairwise_append]
        refine ⟨processPageB_pairwise m st p, ih.1, ?_⟩
        intro a ha b hb heq
        have ha' := (processPageB_out_mem ha).1
        have hb' := ih.2 b hb
        rw [heq] at ha'
        exact hb' ha'
      · intro j hj
        rcases List.mem_append.1 hj with hj' | hj'
        · exact (processPageB_out_mem hj').2
        · intro hs
          exact ih.2 j hj' (processPageB_seen_subset m st p hs)

lemma runBAux_len_le (m : Int) (hm : 0 < m) :
    ∀ (ps : List (List Job)) (st : CrawlStateB),
      (runBAux m st ps).length ≤ (m - (st.total : Int)).toNat
  | [], st => Nat.zero_le _
  | p :: ps, st => by
      rw [runBAux, List.length_append]
      have h1 := processPageB_len_le hm st p
      have h2 := runBAux_len_le m hm ps (processPageB m st p).2
      have h3 := processPageB_total m st p
      omega

/-- C1 counterexample: draft A's duplicate filter lets every record
without a URL through, so one run emits two distinct records with the
same spec identity key (same title+company+location, no URL). -/
theorem runA_emits_two_records_with_equal_identity_key :
    runA 20 blockedFetch [[dupJob1, dupJob2]] = [dupJob1, dupJob2]
  ∧ dupJob1 ≠ dupJob2
  ∧ specIdentityKey dupJob1 = specIdentityKey dupJob2 := by
  decide

/-- C1 amended: in both drafts, no two records emitted over a run share
the same non-empty URL.  (Records without a URL are not deduplicated at
all in draft A, and draft B composites only title and company, not
location.) -/
theorem no_two_emitted_records_share_nonempty_url (m : Int)
    (fetch : String → FetchOutcome) (pages : List (List Job)) :
    List.Pairwise urlDistinct (runA m fetch pages)
  ∧ List.Pairwise urlDistinct (runB m pages) := by
  simp only [runA, runB]
  refine ⟨(runAAux_invariant m fetch pages ⟨[], 0⟩).1, ?_⟩
  refine ((runBAux_invariant m pages ⟨[], 0⟩).1).imp ?_
  intro a b hab h1 h2 heq
  apply hab
  rw [keyB_of_url_ne h1, keyB_of_url_ne h2, heq]

/-- C4: with `maxJobs = N > 0`, the total number of records either draft
pushes to the dataset over a whole run is at most `N`, for every fetch
oracle and every sequence of per-page extraction results. -/
theorem maxJobs_bounds_total_emitted (N : Int)
    (fetch : String → FetchOutcome) (pages : List (List Job)) (h : 0 < N) :
    ((runA N fetch pages).length : Int) ≤ N
  ∧ ((runB N pages).length : Int) ≤ N := by
  have hA := runAAux_len_le N h fetch pages ⟨[], 0⟩
  have hB := runBAux_len_le N h pages ⟨[], 0⟩
  simp only [runA, runB]
  constructor <;> omega

/-- Witness for C4: one page of three jobs, `maxJobs = 2`. -/
theorem maxJobs_bounds_total_emitted_witness :
    (0 : Int) < 2
  ∧ ((runA 2 blockedFetch [[wjob1, wjob2, wjob3]]).length : Int) ≤ 2
  ∧ ((runB 2 [[wjob1, wjob2, wjob3]]).length : Int) ≤ 2 :=
  ⟨by decide,
    (maxJobs_bounds_total_emitted 2 blockedFetch [[wjob1, wjob2, wjob3]]
      (by decide)).1,
    (maxJobs_bounds_total_emitted 2 blockedFetch [[wjob1, wjob2, wjob3]]
      (by decide)).2⟩

/-- C5 counterexample: draft A hardcodes `maxRequestsPerCrawl: 20` and
never reads `maxPages`; configured with `maxPages = 3` and four reachable
pages, the run processes four pages. -/
theorem draftA_ignores_maxPages :
    maxPagesInput.maxPages = some 3
  ∧ maxReqA (mainA maxPagesInput) = 20
  ∧ pagesProcessed 4 (maxReqA (mainA maxPagesInput)) = 4
  ∧ ¬ (pagesProcessed 4 (maxReqA (mainA maxPagesInput)) ≤ 3) := by
  decide

/-- C5 amended: draft B's crawler processes at most `maxPages = N > 0`
pages; draft A's processes at most its hardcoded 20, whatever `maxPages`
says. -/
theorem maxPages_bounds_pages_processed (i : ActorInput) (N : Int)
    (pb : RunPlanB) (pa : RunPlanA) (avail : Nat)
    (hN : i.maxPages = some N) (h0 : 0 < N)
    (hb : mainB i = .ok pb) (ha : mainA i = .ok pa) :
    ((pagesProcessed avail pb.maxRequestsPerCrawl.toNat : Nat) : Int) ≤ N
  ∧ pagesProcessed avail pa.maxRequestsPerCrawl ≤ 20 := by
  constructor
  · simp only [mainB] at hb
    by_cases hv : blankOpt i.searchUrl = true ∧ blankOpt i.searchQuery = true
    · rw [if_pos hv] at hb
      cases hb
    · rw [if_neg hv] at hb
      cases hb
      simp only [pagesProcessed, hN, Option.getD_some, if_pos h0]
      have h1 := min_le_right avail N.toNat
      omega
  · simp only [mainA] at ha
    by_cases hv : blankOpt i.searchUrl = true
        ∧ (blankOpt i.searchQuery = true ∨ blankOpt i.location = true)
    · rw [if_pos hv] at ha
      cases ha
    · rw [if_neg hv] at ha
      by_cases hm : (i.maxJobs.getD 20) < 0 ∨ 10000 < (i.maxJobs.getD 20)
      · rw [if_pos hm] at ha
        cases ha
      · rw [if_neg hm] at ha
        cases ha
        simp only [pagesProcessed]
        exact min_le_right _ _

/-- Witness for the amended C5 at `wInput5` with seven reachable pages. -/
theorem maxPages_bounds_pages_processed_witness :
    ((pagesProcessed 7 wPlanB5.maxRequestsPerCrawl.toNat : Nat) : Int) ≤ 2
  ∧ pagesProcessed 7 wPlanA5.maxRequestsPerCrawl ≤ 20 :=
  maxPages_bounds_pages_processed wInput5 2 wPlanB5 wPlanA5 7 (by decide)
    (by decide) rfl rfl

/-- C6 counterexample: a configuration with BOTH `searchUrl` and
`searchQuery` non-empty is accepted by both drafts' validation — no fatal
error — contradicting "exactly one must be non-empty". -/
theorem both_searchUrl_and_query_accepted :
    blankOpt bothInput.searchUrl = false
  ∧ blankOpt bothInput.searchQuery = false
  ∧ isOkE (mainA bothInput) = true
  ∧ isOkE (mainB bothInput) = true := by
  decide

/-- C6 amended: a configuration with both fields blank aborts fatally
before any fetch in both drafts; a configuration with a non-blank
`searchUrl` (and, for draft A, `maxJobs` in range) starts the run, with
the trimmed `searchUrl` taking precedence as the crawled URL even when
`searchQuery` is also set. -/
theorem validation_characterization (i : ActorInput) :
    (blankOpt i.searchUrl = true → blankOpt i.searchQuery = true →
      isOkE (mainA i) = false ∧ isOkE (mainB i) = false)
  ∧ (blankOpt i.searchUrl = false → ∀ N : Int, i.maxJobs = some N →
      0 ≤ N → N ≤ 10000 →
      isOkE (mainA i) = true
      ∧ startUrlA (mainA i) = some (jsTrimS (i.searchUrl.getD ""))
      ∧ isOkE (mainB i) = true
      ∧ startUrlB (mainB i) = some (jsTrimS (i.searchUrl.getD ""))) := by
  constructor
  · intro h1 h2
    constructor
    · simp [mainA, isOkE, h1, h2]
    · simp [mainB, isOkE, h1, h2]
  · intro h1 N hN hge hle
    have hv1 : ¬ (blankOpt i.searchUrl = true
        ∧ (blankOpt i.searchQuery = true ∨ blankOpt i.location = true)) := by
      simp [h1]
    have hv2 : ¬ (blankOpt i.searchUrl = true
        ∧ blankOpt i.searchQuery = true) := by
      simp [h1]
    have hm : ¬ ((i.maxJobs.getD 20) < 0 ∨ 10000 < (i.maxJobs.getD 20)) := by
      rw [hN]
      simp only [Option.getD_some]
      omega
    have hbu : buildSearchUrl i = jsTrimS (i.searchUrl.getD "") := by
      rw [buildSearchUrl, if_pos h1]
    refine ⟨?_, ?_, ?_, ?_⟩ <;>
      simp [mainA, mainB, isOkE, startUrlA, startUrlB, hv1, hv2, hm, hbu]

/-- Witness for the amended C6: both implications at concrete inputs. -/
theorem validation_characterization_witness :
    (isOkE (mainA emptyInput) = false ∧ isOkE (mainB emptyInput) = false)
  ∧ (isOkE (mainA wInput6) = true
      ∧ startUrlA (mainA wInput6) = some (jsTrimS (wInput6.searchUrl.getD ""))
      ∧ isOkE (mainB wInput6) = true
      ∧ startUrlB (mainB wInput6) = some (jsTrimS (wInput6.searchUrl.getD ""))) :=
  ⟨(validation_characterization emptyInput).1 (by decide) (by decide),
    (validation_characterization wInput6).2 (by decide) 50 (by decide)
      (by decide) (by decide)⟩

/-- C7: the startup of both drafts is entirely independent of `httpOnly`
(the option the README says disables the browser); the run configured
with `httpOnly: true` still builds the Playwright crawler plan and crawls
the search URL with the browser; and the lightweight fetch helper is
configured to retry (limit 2) rather than treat a failure as terminal. -/
theorem run_is_browser_only_and_httpOnly_ignored :
    (∀ (i : ActorInput) (b : Option Bool),
      mainA { i with httpOnly := b } = mainA i
      ∧ mainB { i with httpOnly := b } = mainB i)
  ∧ isOkE (mainA httpOnlyInput) = true
  ∧ startUrlA (mainA httpOnlyInput)
      = some "https://www.monster.com/jobs/search?q=admin&where=New+York&page=1&so=m.h.sh"
  ∧ directAPIRetryLimit = 2 :=
  ⟨fun i b => ⟨rfl, rfl⟩, by decide, by decide, rfl⟩
